import Mathlib

/-!
Shallow embedding of the PyonFX core (src/pyonfx/core.py and src/pyonfx/types.py)
together with theorems settling the specification claims.

Conventions:
* Python machine floats are modelled as exact rationals (ℚ).
* Python `round` (round half to even) is modelled by `pyround`.
* The modules ptime and ptypes are not part of the analysed sources; the few
  facts needed from them (the Time value class and the slot-iteration order of
  AutoSlots records) are modelled from the specification and marked as such.
-/

/-- Python builtin round(): round half to even (used by Style.resample and by
the lead-in default in Ass.__init__). -/
def pyround (q : ℚ) : ℤ :=
  if q - ⌊q⌋ < 1/2 then ⌊q⌋
  else if 1/2 < q - ⌊q⌋ then ⌊q⌋ + 1
  else if Even ⌊q⌋ then ⌊q⌋ else ⌊q⌋ + 1

/-- Python round(x, 5) as used in Style.resample for outline and shadow. -/
def pyround5 (q : ℚ) : ℚ := (pyround (q * 100000) : ℚ) / 100000

/-- Result of a Python call that may raise. -/
def raisesError {ε α : Type} : Except ε α → Bool
  | Except.error _ => true
  | Except.ok _ => false

/-! ## types.py: ValueRangeIncInc (lines 53-62) -/

/-- types.py ValueRangeIncInc: a range annotation carrying the two bounds. -/
structure ValueRangeIncInc where
  x : ℚ
  y : ℚ

/-- The loop of ValueRangeIncInc.check: for each v,
if not self.x < v < self.y: raise ValueError. -/
def ValueRangeIncInc.check (r : ValueRangeIncInc) (vals : List ℚ) (param_name : String) :
    Except String Unit :=
  match vals with
  | [] => Except.ok ()
  | v :: vs =>
    if r.x < v ∧ v < r.y then r.check vs param_name
    else Except.error (param_name ++ " is not in the range")

/-- Entry of ValueRangeIncInc.check: a single float argument is wrapped into a
one-element list, an iterable is used as is. -/
def ValueRangeIncInc.checkVal (r : ValueRangeIncInc) (val : ℚ ⊕ List ℚ) (param_name : String) :
    Except String Unit :=
  r.check (match val with | Sum.inl v => [v] | Sum.inr l => l) param_name

/-- types.py line 69: Alignment = Annotated[int, ValueRangeIncInc(0, 9)]. -/
def AlignmentCheck : ValueRangeIncInc := ⟨0, 9⟩

/-! ## core.py: alignment class predicates (lines 733-749) -/

/-- Style.an_is_left: alignment in {1, 4, 7}. -/
def an_is_left (al : ℤ) : Bool := al == 1 || al == 4 || al == 7

/-- Style.an_is_center: alignment in {2, 5, 8}. -/
def an_is_center (al : ℤ) : Bool := al == 2 || al == 5 || al == 8

/-- Style.an_is_right: alignment in {3, 6, 9}. -/
def an_is_right (al : ℤ) : Bool := al == 3 || al == 6 || al == 9

/-- Style.an_is_top: alignment in {7, 8, 9}. -/
def an_is_top (al : ℤ) : Bool := al == 7 || al == 8 || al == 9

/-- Style.an_is_middle: alignment in {4, 5, 6}. -/
def an_is_middle (al : ℤ) : Bool := al == 4 || al == 5 || al == 6

/-- Style.an_is_bottom: alignment in {1, 2, 3}. -/
def an_is_bottom (al : ℤ) : Bool := al == 1 || al == 2 || al == 3

/-! ## core.py: Line.add_data positioning (lines 1254-1288) -/

/-- The Style fields read by the layout passes. -/
structure ADStyle where
  alignment : ℤ
  margin_l : ℤ
  margin_r : ℤ
  margin_v : ℤ
  spacing : ℚ
deriving DecidableEq

/-- The positional fields of _PositionedText. -/
structure LinePos where
  left : ℚ
  center : ℚ
  right : ℚ
  x : ℚ
  top : ℚ
  middle : ℚ
  bottom : ℚ
  y : ℚ
deriving DecidableEq

/-- Line.add_data, positioning part (core.py lines 1254-1288): effective margins
inherit from the style when the line margin is exactly 0; the horizontal anchor
is chosen by the an_is_left / an_is_center / else chain, the vertical one by the
an_is_top / an_is_middle / else chain. -/
def add_data_pos (play_res_x play_res_y : ℤ) (style : ADStyle)
    (lmargin_l lmargin_r lmargin_v : ℤ) (width height : ℚ) : LinePos :=
  let margin_l : ℚ := if lmargin_l ≠ 0 then (lmargin_l : ℚ) else (style.margin_l : ℚ)
  let margin_r : ℚ := if lmargin_r ≠ 0 then (lmargin_r : ℚ) else (style.margin_r : ℚ)
  let left : ℚ :=
    if an_is_left style.alignment then margin_l
    else if an_is_center style.alignment then
      (play_res_x : ℚ) / 2 - width / 2 + margin_l / 2 - margin_r / 2
    else (play_res_x : ℚ) - margin_r - width
  let center := left + width / 2
  let right := left + width
  let x : ℚ :=
    if an_is_left style.alignment then left
    else if an_is_center style.alignment then center
    else right
  let top : ℚ :=
    if an_is_top style.alignment then
      (if lmargin_v ≠ 0 then (lmargin_v : ℚ) else (style.margin_v : ℚ))
    else if an_is_middle style.alignment then (play_res_y : ℚ) / 2 - height / 2
    else (play_res_y : ℚ) -
      (if lmargin_v ≠ 0 then (lmargin_v : ℚ) else (style.margin_v : ℚ)) - height
  let middle := top + height / 2
  let bottom := top + height
  let y : ℚ :=
    if an_is_top style.alignment then top
    else if an_is_middle style.alignment then middle
    else bottom
  ⟨left, center, right, x, top, middle, bottom, y⟩

/-! ## core.py: Line.add_chars, non-vertical layout pass (lines 1588-1609) -/

/-- The cursor loop of the non-vertical char layout pass in Line.add_chars.
Each char gets left = cur_x, center, right from its width; then the source runs
{if style.an_is_left(): char.x = char.left} immediately followed by
{if style.an_is_center(): char.x = char.center  else: char.x = char.right},
so the first store is always overwritten by the second statement.  The cursor
then advances by char.width + style.spacing, and the vertical fields are copied
from the line. -/
def add_chars_x_loop (style : ADStyle) (line : LinePos) : ℚ → List ℚ → List LinePos
  | _, [] => []
  | cur_x, w :: ws =>
    let left := cur_x
    let center := left + w / 2
    let right := left + w
    let _x_dead : Option ℚ := if an_is_left style.alignment then some left else none
    let x : ℚ := if an_is_center style.alignment then center else right
    ⟨left, center, right, x, line.top, line.middle, line.bottom, line.y⟩ ::
      add_chars_x_loop style line (cur_x + w + style.spacing) ws

/-- The non-vertical char layout pass of Line.add_chars (runs for any top or
bottom alignment, or when vertical_kanji is disabled): the cursor starts at the
line's left anchor. -/
def add_chars_horiz (style : ADStyle) (line : LinePos) (char_widths : List ℚ) : List LinePos :=
  add_chars_x_loop style line line.left char_widths

/-! ## Claim theorems C10, C5, C4 -/

theorem check_raises_iff (r : ValueRangeIncInc) (vals : List ℚ) (pn : String) :
    raisesError (r.check vals pn) = true ↔ ∃ v ∈ vals, ¬(r.x < v ∧ v < r.y) := by
  induction vals with
  | nil => simp [ValueRangeIncInc.check, raisesError]
  | cons v vs ih =>
    by_cases h : r.x < v ∧ v < r.y
    · simp [ValueRangeIncInc.check, h, ih]
    · constructor
      · intro _
        exact ⟨v, List.mem_cons_self v vs, h⟩
      · intro _
        simp [ValueRangeIncInc.check, h, raisesError]

/-- C10: ValueRangeIncInc.check raises exactly when some checked value fails the
strict comparison x < v < y; in particular the Alignment annotation
ValueRangeIncInc(0, 9) rejects the boundary values 9 and 0. -/
theorem claim_C10 :
    (∀ (r : ValueRangeIncInc) (vals : List ℚ) (pn : String),
      raisesError (r.check vals pn) = true ↔ ∃ v ∈ vals, ¬(r.x < v ∧ v < r.y))
    ∧ raisesError (AlignmentCheck.checkVal (Sum.inl 9) "alignment") = true
    ∧ raisesError (AlignmentCheck.checkVal (Sum.inl 0) "alignment") = true := by
  refine ⟨check_raises_iff, ?_, ?_⟩ <;> decide

/-- C5: in Line.add_data the horizontal anchor is margin_l for the left
alignment class, play_res_x/2 - width/2 + (margin_l - margin_r)/2 for the
center class and play_res_x - margin_r - width for the right class, with x
equal to left/center/right respectively; the alignment-5 scenario at 1920x1080
with zero effective margins and width 100 yields left = 910 and
x = center = 960. -/
theorem claim_C5 :
    (∀ (prx pry : ℤ) (st : ADStyle) (ml mr mv : ℤ) (w h : ℚ),
      (add_data_pos prx pry st ml mr mv w h).left =
        (if an_is_left st.alignment then
          (if ml ≠ 0 then (ml : ℚ) else (st.margin_l : ℚ))
        else if an_is_center st.alignment then
          (prx : ℚ) / 2 - w / 2 +
            ((if ml ≠ 0 then (ml : ℚ) else (st.margin_l : ℚ)) -
              (if mr ≠ 0 then (mr : ℚ) else (st.margin_r : ℚ))) / 2
        else (prx : ℚ) - (if mr ≠ 0 then (mr : ℚ) else (st.margin_r : ℚ)) - w)
      ∧ (add_data_pos prx pry st ml mr mv w h).x =
        (if an_is_left st.alignment then (add_data_pos prx pry st ml mr mv w h).left
        else if an_is_center st.alignment then (add_data_pos prx pry st ml mr mv w h).center
        else (add_data_pos prx pry st ml mr mv w h).right))
    ∧ (add_data_pos 1920 1080 ⟨5, 0, 0, 0, 0⟩ 0 0 0 100 20).left = 910
    ∧ (add_data_pos 1920 1080 ⟨5, 0, 0, 0, 0⟩ 0 0 0 100 20).x = 960
    ∧ (add_data_pos 1920 1080 ⟨5, 0, 0, 0, 0⟩ 0 0 0 100 20).center = 960 := by
  refine ⟨?_,
    by norm_num [add_data_pos, an_is_left, an_is_center],
    by norm_num [add_data_pos, an_is_left, an_is_center],
    by norm_num [add_data_pos, an_is_left, an_is_center]⟩
  intro prx pry st ml mr mv w h
  refine ⟨?_, rfl⟩
  simp only [add_data_pos]
  split
  · rfl
  · split
    · ring_nf
    · rfl

theorem add_chars_x_loop_left_x (style : ADStyle) (line : LinePos)
    (h : style.alignment = 1 ∨ style.alignment = 4 ∨ style.alignment = 7) :
    ∀ (cur_x : ℚ) (ws : List ℚ),
      (add_chars_x_loop style line cur_x ws).map LinePos.x =
        (add_chars_x_loop style line cur_x ws).map LinePos.right := by
  have hc : an_is_center style.alignment = false := by
    rcases h with h | h | h <;> simp [an_is_center, h]
  intro cur_x ws
  induction ws generalizing cur_x with
  | nil => rfl
  | cons w ws ih => simp [add_chars_x_loop, hc, ih]

/-- C4: in the non-vertical char layout pass of add_chars, for a style whose
alignment is in {1, 4, 7} every char's final x equals its right edge (the
left-branch store is overwritten by the center/else chain). -/
theorem claim_C4 (style : ADStyle) (line : LinePos) (char_widths : List ℚ)
    (h : style.alignment = 1 ∨ style.alignment = 4 ∨ style.alignment = 7) :
    (add_chars_horiz style line char_widths).map LinePos.x =
      (add_chars_horiz style line char_widths).map LinePos.right := by
  exact add_chars_x_loop_left_x style line h line.left char_widths

/-- Concrete instance of C4 at alignment 1 with two chars of widths 2 and 3. -/
theorem claim_C4_witness :
    (add_chars_horiz ⟨1, 10, 10, 10, 0⟩ ⟨0, 50, 100, 0, 0, 10, 20, 20⟩ [2, 3]).map LinePos.x =
      (add_chars_horiz ⟨1, 10, 10, 10, 0⟩ ⟨0, 50, 100, 0, 0, 10, 20, 20⟩ [2, 3]).map
        LinePos.right :=
  claim_C4 ⟨1, 10, 10, 10, 0⟩ ⟨0, 50, 100, 0, 0, 10, 20, 20⟩ [2, 3] (Or.inl rfl)

/-! ## Rounding lemmas for Style.resample -/

theorem pyround_abs (q : ℚ) : |(pyround q : ℚ) - q| ≤ 1/2 := by
  have h0 : (⌊q⌋ : ℚ) ≤ q := Int.floor_le q
  have h1 : q < ⌊q⌋ + 1 := Int.lt_floor_add_one q
  rw [pyround]
  split_ifs with hf hg he
  · rw [abs_le]
    constructor <;> linarith
  · rw [abs_le]
    push_cast
    constructor <;> linarith
  · rw [abs_le]
    constructor <;> linarith [le_of_not_lt hf, le_of_not_lt hg]
  · rw [abs_le]
    push_cast
    constructor <;> linarith [le_of_not_lt hf, le_of_not_lt hg]

theorem pyround_div_le (q s : ℚ) (hs : 1 ≤ s) :
    |(pyround (q * s) : ℚ) / s - q| ≤ 1/2 := by
  have hspos : (0 : ℚ) < s := lt_of_lt_of_le one_pos hs
  have h1 : |(pyround (q * s) : ℚ) - q * s| ≤ 1/2 := pyround_abs _
  have heq : (pyround (q * s) : ℚ) / s - q = ((pyround (q * s) : ℚ) - q * s) / s := by
    field_simp
    ring
  rw [heq, abs_div, abs_of_pos hspos]
  calc |(pyround (q * s) : ℚ) - q * s| / s ≤ (1/2) / s := by
        exact (div_le_div_iff_of_pos_right hspos).mpr h1
    _ ≤ 1/2 := div_le_self (by norm_num) hs

theorem pyround_roundtrip (q s : ℚ) (hs : 1 ≤ s) :
    |(pyround ((pyround (q * s) : ℚ) / s) : ℚ) - q| ≤ 1 := by
  have h2 := pyround_div_le q s hs
  have h3 := pyround_abs ((pyround (q * s) : ℚ) / s)
  calc |(pyround ((pyround (q * s) : ℚ) / s) : ℚ) - q|
      ≤ |(pyround ((pyround (q * s) : ℚ) / s) : ℚ) - (pyround (q * s) : ℚ) / s|
        + |(pyround (q * s) : ℚ) / s - q| := abs_sub_le _ _ _
    _ ≤ 1 := by linarith

theorem pyround5_abs (q : ℚ) : |pyround5 q - q| ≤ 1/200000 := by
  have h := pyround_abs (q * 100000)
  have heq : pyround5 q - q = ((pyround (q * 100000) : ℚ) - q * 100000) / 100000 := by
    rw [pyround5]
    ring
  rw [heq, abs_div]
  rw [show |(100000 : ℚ)| = 100000 by norm_num]
  have h2 : |(pyround (q * 100000) : ℚ) - q * 100000| / 100000 ≤ (1/2) / 100000 := by
    exact (div_le_div_iff_of_pos_right (by norm_num)).mpr h
  linarith

theorem pyround5_div_le (q s : ℚ) (hs : 1 ≤ s) :
    |pyround5 (q * s) / s - q| ≤ 1/200000 := by
  have hspos : (0 : ℚ) < s := lt_of_lt_of_le one_pos hs
  have h1 : |pyround5 (q * s) - q * s| ≤ 1/200000 := pyround5_abs _
  have heq : pyround5 (q * s) / s - q = (pyround5 (q * s) - q * s) / s := by
    field_simp
    ring
  rw [heq, abs_div, abs_of_pos hspos]
  calc |pyround5 (q * s) - q * s| / s ≤ (1/200000) / s := by
        exact (div_le_div_iff_of_pos_right hspos).mpr h1
    _ ≤ 1/200000 := div_le_self (by norm_num) hs

theorem pyround5_roundtrip (q s : ℚ) (hs : 1 ≤ s) :
    |pyround5 (pyround5 (q * s) / s) - q| ≤ 1 := by
  have h2 := pyround5_div_le q s hs
  have h3 := pyround5_abs (pyround5 (q * s) / s)
  calc |pyround5 (pyround5 (q * s) / s) - q|
      ≤ |pyround5 (pyround5 (q * s) / s) - pyround5 (q * s) / s|
        + |pyround5 (q * s) / s - q| := abs_sub_le _ _ _
    _ ≤ 1 := by linarith

/-! ## core.py: Style.resample (lines 828-877) -/

/-- The Style fields touched by Style.resample. -/
structure RStyle where
  fontsize : ℚ
  scale_x : ℚ
  spacing : ℚ
  margin_l : ℤ
  margin_r : ℤ
  margin_v : ℤ
  outline : ℚ
  shadow : ℚ
deriving DecidableEq

/-- Style.resample (core.py lines 828-877), with the source resolution given as
an explicit width/height pair (the Meta/ScriptInfo overloads only extract the
same pair).  scale_width/scale_height are the target/source ratios; the
horizontal stretch applies only when the aspect ratios differ by more than 1%
of the new one; font size and the three margins are rounded with Python round;
outline and shadow are scaled and rounded to 5 decimals only when scaled border
and shadow is in effect. -/
def Style.resample (st : RStyle) (src_res target_res : ℤ × ℤ)
    (scaled_border_and_shadow : Bool) : RStyle :=
  let scale_width : ℚ := (target_res.1 : ℚ) / (src_res.1 : ℚ)
  let scale_height : ℚ := (target_res.2 : ℚ) / (src_res.2 : ℚ)
  let old_ar : ℚ := (src_res.1 : ℚ) / (src_res.2 : ℚ)
  let new_ar : ℚ := (target_res.1 : ℚ) / (target_res.2 : ℚ)
  let horizontal_stretch : ℚ := if |old_ar - new_ar| / new_ar > 1/100 then new_ar / old_ar else 1
  { fontsize := (pyround (st.fontsize * scale_height) : ℚ)
    scale_x := st.scale_x * horizontal_stretch
    spacing := st.spacing * scale_width
    margin_l := pyround ((st.margin_l : ℚ) * scale_width)
    margin_r := pyround ((st.margin_r : ℚ) * scale_width)
    margin_v := pyround ((st.margin_v : ℚ) * scale_height)
    outline := if scaled_border_and_shadow then pyround5 (st.outline * scale_height) else st.outline
    shadow := if scaled_border_and_shadow then pyround5 (st.shadow * scale_height) else st.shadow }

/-- C7 (amended): when the target resolution dominates the source one (both
scale factors at least 1), resampling source-to-target and back returns font
size and the three margins to within 1 unit of their original values, and, when
scaled border and shadow is in effect, outline and shadow as well. -/
theorem claim_C7_amended (st : RStyle) (a b c d : ℤ) (sbas : Bool)
    (ha : 0 < a) (hb : 0 < b) (hac : a ≤ c) (hbd : b ≤ d) :
    |(Style.resample (Style.resample st (a, b) (c, d) sbas) (c, d) (a, b) sbas).fontsize
        - st.fontsize| ≤ 1
    ∧ |(Style.resample (Style.resample st (a, b) (c, d) sbas) (c, d) (a, b) sbas).margin_l
        - st.margin_l| ≤ 1
    ∧ |(Style.resample (Style.resample st (a, b) (c, d) sbas) (c, d) (a, b) sbas).margin_r
        - st.margin_r| ≤ 1
    ∧ |(Style.resample (Style.resample st (a, b) (c, d) sbas) (c, d) (a, b) sbas).margin_v
        - st.margin_v| ≤ 1
    ∧ (sbas = true →
        |(Style.resample (Style.resample st (a, b) (c, d) sbas) (c, d) (a, b) sbas).outline
          - st.outline| ≤ 1
        ∧ |(Style.resample (Style.resample st (a, b) (c, d) sbas) (c, d) (a, b) sbas).shadow
          - st.shadow| ≤ 1) := by
  have haq : (0 : ℚ) < (a : ℚ) := by exact_mod_cast ha
  have hbq : (0 : ℚ) < (b : ℚ) := by exact_mod_cast hb
  have hcq : (0 : ℚ) < (c : ℚ) := lt_of_lt_of_le haq (by exact_mod_cast hac)
  have hdq : (0 : ℚ) < (d : ℚ) := lt_of_lt_of_le hbq (by exact_mod_cast hbd)
  have hsw : (1 : ℚ) ≤ (c : ℚ) / (a : ℚ) := (one_le_div haq).mpr (by exact_mod_cast hac)
  have hsh : (1 : ℚ) ≤ (d : ℚ) / (b : ℚ) := (one_le_div hbq).mpr (by exact_mod_cast hbd)
  have hinvw : (a : ℚ) / (c : ℚ) = ((c : ℚ) / (a : ℚ))⁻¹ := by
    rw [inv_div]
  have hinvh : (b : ℚ) / (d : ℚ) = ((d : ℚ) / (b : ℚ))⁻¹ := by
    rw [inv_div]
  have keyh : ∀ f : ℚ,
      |(pyround ((pyround (f * ((d : ℚ) / b)) : ℚ) * ((b : ℚ) / d)) : ℚ) - f| ≤ 1 := by
    intro f
    rw [hinvh, ← div_eq_mul_inv]
    exact pyround_roundtrip f _ hsh
  have keyw : ∀ f : ℚ,
      |(pyround ((pyround (f * ((c : ℚ) / a)) : ℚ) * ((a : ℚ) / c)) : ℚ) - f| ≤ 1 := by
    intro f
    rw [hinvw, ← div_eq_mul_inv]
    exact pyround_roundtrip f _ hsw
  have key5h : ∀ f : ℚ,
      |pyround5 (pyround5 (f * ((d : ℚ) / b)) * ((b : ℚ) / d)) - f| ≤ 1 := by
    intro f
    rw [hinvh, ← div_eq_mul_inv]
    exact pyround5_roundtrip f _ hsh
  have intcast : ∀ m m2 : ℤ, |(m2 : ℚ) - (m : ℚ)| ≤ 1 → |m2 - m| ≤ 1 := by
    intro m m2 h
    have : ((|m2 - m| : ℤ) : ℚ) ≤ 1 := by
      push_cast
      exact h
    exact_mod_cast this
  refine ⟨?_, ?_, ?_, ?_, ?_⟩
  · simpa [Style.resample] using keyh st.fontsize
  · refine intcast _ _ ?_
    simpa [Style.resample] using keyw (st.margin_l : ℚ)
  · refine intcast _ _ ?_
    simpa [Style.resample] using keyw (st.margin_r : ℚ)
  · refine intcast _ _ ?_
    simpa [Style.resample] using keyh (st.margin_v : ℚ)
  · intro hsb
    subst hsb
    constructor
    · simpa [Style.resample] using key5h st.outline
    · simpa [Style.resample] using key5h st.shadow

/-- Concrete instance of the amended C7: a style resampled from 1280x720 to
1920x1080 and back comes home within 1 unit on all rounded fields. -/
theorem claim_C7_witness :
    |(Style.resample (Style.resample ⟨24, 100, 0, 10, 10, 10, 2, 2⟩
        (1280, 720) (1920, 1080) true) (1920, 1080) (1280, 720) true).fontsize
        - (⟨24, 100, 0, 10, 10, 10, 2, 2⟩ : RStyle).fontsize| ≤ 1
    ∧ |(Style.resample (Style.resample ⟨24, 100, 0, 10, 10, 10, 2, 2⟩
        (1280, 720) (1920, 1080) true) (1920, 1080) (1280, 720) true).margin_l
        - (⟨24, 100, 0, 10, 10, 10, 2, 2⟩ : RStyle).margin_l| ≤ 1
    ∧ |(Style.resample (Style.resample ⟨24, 100, 0, 10, 10, 10, 2, 2⟩
        (1280, 720) (1920, 1080) true) (1920, 1080) (1280, 720) true).margin_r
        - (⟨24, 100, 0, 10, 10, 10, 2, 2⟩ : RStyle).margin_r| ≤ 1
    ∧ |(Style.resample (Style.resample ⟨24, 100, 0, 10, 10, 10, 2, 2⟩
        (1280, 720) (1920, 1080) true) (1920, 1080) (1280, 720) true).margin_v
        - (⟨24, 100, 0, 10, 10, 10, 2, 2⟩ : RStyle).margin_v| ≤ 1
    ∧ (true = true →
        |(Style.resample (Style.resample ⟨24, 100, 0, 10, 10, 10, 2, 2⟩
          (1280, 720) (1920, 1080) true) (1920, 1080) (1280, 720) true).outline
          - (⟨24, 100, 0, 10, 10, 10, 2, 2⟩ : RStyle).outline| ≤ 1
        ∧ |(Style.resample (Style.resample ⟨24, 100, 0, 10, 10, 10, 2, 2⟩
          (1280, 720) (1920, 1080) true) (1920, 1080) (1280, 720) true).shadow
          - (⟨24, 100, 0, 10, 10, 10, 2, 2⟩ : RStyle).shadow| ≤ 1) :=
  claim_C7_amended ⟨24, 100, 0, 10, 10, 10, 2, 2⟩ 1280 720 1920 1080 true
    (by norm_num) (by norm_num) (by norm_num) (by norm_num)

/-- C7 counterexample: resampling from 1920x1080 down to 192x108 and back moves
a font size of 24 to 20, more than 1 unit away, so the round-trip claim fails
as stated (for arbitrary resolutions). -/
theorem claim_C7_counterexample :
    1 < |(Style.resample (Style.resample ⟨24, 100, 0, 10, 10, 10, 2, 2⟩
        (1920, 1080) (192, 108) true) (192, 108) (1920, 1080) true).fontsize
        - (⟨24, 100, 0, 10, 10, 10, 2, 2⟩ : RStyle).fontsize| := by
  have hf1 : ⌊(12/5 : ℚ)⌋ = 2 := Int.floor_eq_iff.mpr ⟨by norm_num, by norm_num⟩
  have hf2 : ⌊(20 : ℚ)⌋ = 20 := Int.floor_eq_iff.mpr ⟨by norm_num, by norm_num⟩
  have h1 : pyround ((24 : ℚ) * (((108 : ℤ) : ℚ) / ((1080 : ℤ) : ℚ))) = 2 := by
    rw [show ((24 : ℚ) * (((108 : ℤ) : ℚ) / ((1080 : ℤ) : ℚ))) = 12/5 by norm_num,
      pyround, hf1]
    norm_num
  have h2 : pyround (((2 : ℤ) : ℚ) * (((1080 : ℤ) : ℚ) / ((108 : ℤ) : ℚ))) = 20 := by
    rw [show (((2 : ℤ) : ℚ) * (((1080 : ℤ) : ℚ) / ((108 : ℤ) : ℚ))) = 20 by norm_num,
      pyround, hf2]
    norm_num
  simp only [Style.resample, h1, h2]
  norm_num

/-! ## core.py: lead-in and lead-out (Ass.__init__, lines 199-210) -/

/-- Modelled from the spec: Time arithmetic (ptime module, not under src/)
clamps at zero on underflow, never producing a negative duration. -/
def tsub (a b : ℚ) : ℚ := max (a - b) 0

/-- The Line fields read by the lead computation. -/
structure LLine where
  styleName : String
  start_time : ℚ
  end_time : ℚ
deriving DecidableEq

/-- Ass.__init__ line 200: default_lead = 1 / float(fps) * round(fps). -/
def defaultLead (fps : ℚ) : ℚ := 1 / fps * (pyround fps : ℚ)

/-- The lines_by_styles grouping of Ass.__init__ (lines 182-188): lines keep
their original relative order inside each same-style-name group. -/
def styleGroup (lines : List LLine) (name : String) : List LLine :=
  lines.filter (fun l => l.styleName == name)

/-- The zip_offset(-1, 0, 1) loop of Ass.__init__ (lines 202-210) over one
style group: each line's leadin is the default when it has no predecessor in
the group, else its start time minus the predecessor's end time; leadout is the
default when it has no successor, else the successor's start time minus its own
end time. -/
def computeLeads (fps : ℚ) : Option LLine → List LLine → List (ℚ × ℚ)
  | _, [] => []
  | pre, cur :: rest =>
    let leadin := match pre with
      | none => defaultLead fps
      | some p => tsub cur.start_time p.end_time
    let leadout := match rest.head? with
      | none => defaultLead fps
      | some p => tsub p.start_time cur.end_time
    (leadin, leadout) :: computeLeads fps (some cur) rest

/-- The leads assigned to the lines of one style group of a document. -/
def lineLeads (fps : ℚ) (lines : List LLine) (name : String) : List (ℚ × ℚ) :=
  computeLeads fps none (styleGroup lines name)

theorem computeLeads_get (fps : ℚ) (g : List LLine) :
    ∀ (pre : Option LLine) (i : ℕ) (cur : LLine), g[i]? = some cur →
      (computeLeads fps pre g)[i]? = some (
        (match (match i with | 0 => pre | j+1 => g[j]?) with
         | none => defaultLead fps
         | some p => tsub cur.start_time p.end_time),
        (match g[i+1]? with
         | none => defaultLead fps
         | some p => tsub p.start_time cur.end_time)) := by
  induction g with
  | nil =>
    intro pre i cur h
    simp at h
  | cons a rest ih =>
    intro pre i cur h
    match i with
    | 0 =>
      have ha : a = cur := by simpa using h
      subst ha
      cases rest with
      | nil => simp [computeLeads]
      | cons b rest2 => simp [computeLeads]
    | Nat.succ j =>
      have h' : rest[j]? = some cur := by simpa using h
      have hstep := ih (some a) j cur h'
      simp only [computeLeads, List.getElem?_cons_succ]
      rw [hstep]
      cases j with
      | zero => simp
      | succ k => simp

/-- C6 (amended): in each same-style group (original order), a line's leadin is
the gap start - previous end (as clamped Time subtraction) to the immediately
preceding line of the group, and its leadout the gap to the immediately
following one; at group boundaries the default 1/fps * round(fps) seconds is
assigned instead (not one frame). -/
theorem claim_C6_amended (fps : ℚ) (lines : List LLine) (name : String) (i : ℕ) (cur : LLine)
    (h : (styleGroup lines name)[i]? = some cur) :
    (lineLeads fps lines name)[i]? = some (
      (match (match i with | 0 => none | j+1 => (styleGroup lines name)[j]?) with
       | none => defaultLead fps
       | some p => tsub cur.start_time p.end_time),
      (match (styleGroup lines name)[i+1]? with
       | none => defaultLead fps
       | some p => tsub p.start_time cur.end_time)) :=
  computeLeads_get fps (styleGroup lines name) none i cur h

/-- The three-line document used to instantiate the amended C6. -/
def lnsC6 : List LLine := [⟨"A", 0, 2⟩, ⟨"B", 0, 1⟩, ⟨"A", 5, 7⟩]

/-- Concrete instance of the amended C6: the second "A"-line has leadin 5 - 2
against the first "A"-line (the "B"-line in between is ignored) and the default
leadout. -/
theorem claim_C6_witness :
    (lineLeads (24000/1001) lnsC6 "A")[1]? =
      some (tsub 5 2, defaultLead (24000/1001)) :=
  claim_C6_amended (24000/1001) lnsC6 "A" 1 ⟨"A", 5, 7⟩ (by rfl)

theorem pyround_ntsc : pyround (24000/1001 : ℚ) = 24 := by
  have hf : ⌊(24000/1001 : ℚ)⌋ = 23 := Int.floor_eq_iff.mpr ⟨by norm_num, by norm_num⟩
  rw [pyround, hf]
  norm_num

theorem defaultLead_ntsc : defaultLead (24000/1001) = 1001/1000 := by
  rw [defaultLead, pyround_ntsc]
  norm_num

/-- C6 counterexample: at fps = 24000/1001 a line with no same-style neighbour
gets leadin = leadout = 1001/1000 seconds (about one second), which is not the
one-frame duration 1/fps = 1001/24000 the claim states. -/
theorem claim_C6_counterexample :
    lineLeads (24000/1001) [⟨"A", 10, 12⟩] "A" = [(1001/1000, 1001/1000)]
    ∧ (1001/1000 : ℚ) ≠ 1 / (24000/1001) := by
  refine ⟨?_, by norm_num⟩
  simp [lineLeads, styleGroup, computeLeads, defaultLead_ntsc]

/-! ## core.py: PList.strip_empty (lines 1798-1802) -/

/-- Python str.strip(): drop leading and trailing whitespace. -/
def pyStrip (cs : List Char) : List Char :=
  ((cs.dropWhile Char.isWhitespace).reverse.dropWhile Char.isWhitespace).reverse

/-- A text unit as seen by PList.strip_empty: only the text and duration fields
are read; equality is dataclass equality (_DataCore.__eq__ compares fields). -/
structure TextUnit where
  text : List Char
  duration : ℚ
deriving DecidableEq

/-- The keep condition: x.text.strip() != '' and x.duration > 0. -/
def keepUnit (u : TextUnit) : Bool := pyStrip u.text ≠ [] ∧ 0 < u.duration

/-- The for-loop of PList.strip_empty.  Python iterates data by position while
list.remove mutates it, so it visits data[0], data[1], ... of the changing
list; list.remove(x) deletes the first element equal to x. -/
def stripLoop (i : ℕ) (data : List TextUnit) : List TextUnit :=
  if h : i < data.length then
    if keepUnit data[i] then stripLoop (i + 1) data
    else stripLoop (i + 1) (data.erase data[i])
  else data
termination_by data.length - i
decreasing_by
  · omega
  · have hm : data[i] ∈ data := List.getElem_mem h
    have := List.length_erase_of_mem hm
    omega

/-- UserList.copy: a new list object holding the same elements. -/
def listCopy (l : List TextUnit) : List TextUnit := l.foldr List.cons []

/-- PList.strip_empty (core.py 1798-1802): the loop walks `data`, which aliases
the receiver's backing list unless return_new is set, in which case it is a
fresh copy; afterwards the receiver is `data` itself in the aliased case and is
untouched in the copying case.  Result: (receiver after the call, returned
value). -/
def strip_empty (self : List TextUnit) (return_new : Bool) :
    List TextUnit × Option (List TextUnit) :=
  let data := if return_new then listCopy self else self
  let data2 := stripLoop 0 data
  (if return_new then self else data2, if return_new then some data2 else none)

/-- PList.strip_empty with return_new=False: the receiver after the call. -/
def stripEmptyInPlace (l : List TextUnit) : List TextUnit := (strip_empty l false).1

theorem listCopy_eq (l : List TextUnit) : listCopy l = l := by
  induction l with
  | nil => rfl
  | cons a rest ih =>
    show a :: listCopy rest = a :: rest
    rw [ih]

/-- C9: strip_empty with return_new=True leaves the receiver unchanged and
returns the stripped copy as a new list. -/
theorem claim_C9 (l : List TextUnit) :
    (strip_empty l true).1 = l ∧ (strip_empty l true).2 = some (stripLoop 0 l) := by
  constructor
  · rfl
  · simp [strip_empty, listCopy_eq]

/-- No two adjacent units of the list are both removable. -/
def adjOK : List TextUnit → Bool
  | [] => true
  | [_] => true
  | a :: b :: rest => (keepUnit a || keepUnit b) && adjOK (b :: rest)

theorem adjOK_tail {a : TextUnit} {l : List TextUnit} (h : adjOK (a :: l) = true) :
    adjOK l = true := by
  cases l with
  | nil => rfl
  | cons b rest =>
    simp only [adjOK, Bool.and_eq_true] at h
    exact h.2

theorem all_keep_adjOK : ∀ (l : List TextUnit), (∀ x ∈ l, keepUnit x = true) → adjOK l = true
  | [], _ => rfl
  | [_], _ => rfl
  | a :: b :: rest, h => by
    simp only [adjOK, Bool.and_eq_true]
    refine ⟨?_, all_keep_adjOK (b :: rest) (fun x hx => h x (List.mem_cons_of_mem a hx))⟩
    rw [h a (List.mem_cons_self a _)]
    simp

theorem stripLoop_append_filter :
    ∀ (post pre : List TextUnit), (∀ x ∈ pre, keepUnit x = true) → adjOK post = true →
      stripLoop pre.length (pre ++ post) = pre ++ post.filter keepUnit
  | [], pre, _, _ => by
    rw [stripLoop]
    simp
  | x :: rest, pre, hpre, hadj => by
    have hlen : pre.length < (pre ++ x :: rest).length := by simp
    have hget : (pre ++ x :: rest)[pre.length] = x := by
      rw [List.getElem_append_right (le_refl pre.length)]
      simp
    rw [stripLoop, dif_pos hlen, hget]
    by_cases hx : keepUnit x = true
    · rw [if_pos hx]
      have hp : ∀ y ∈ pre ++ [x], keepUnit y = true := by
        intro y hy
        rcases List.mem_append.mp hy with hy | hy
        · exact hpre y hy
        · simp only [List.mem_singleton] at hy
          subst hy
          exact hx
      have IH := stripLoop_append_filter rest (pre ++ [x]) hp (adjOK_tail hadj)
      have h1 : pre ++ x :: rest = (pre ++ [x]) ++ rest := by simp
      have h2 : pre.length + 1 = (pre ++ [x]).length := by simp
      rw [h1, h2, IH]
      simp [List.filter_cons, hx]
    · rw [if_neg hx]
      have hxnp : x ∉ pre := fun hmem => hx (hpre x hmem)
      have herase : (pre ++ x :: rest).erase x = pre ++ rest := by
        rw [List.erase_append_right _ hxnp]
        simp
      rw [herase]
      cases rest with
      | nil =>
        rw [stripLoop]
        simp [List.filter_cons, hx]
      | cons y rest2 =>
        have hy : keepUnit y = true := by
          simp only [adjOK, Bool.and_eq_true, Bool.or_eq_true] at hadj
          rcases hadj.1 with h | h
          · exact absurd h hx
          · exact h
        have hp2 : ∀ z ∈ pre ++ [y], keepUnit z = true := by
          intro z hz
          rcases List.mem_append.mp hz with hz | hz
          · exact hpre z hz
          · simp only [List.mem_singleton] at hz
            subst hz
            exact hy
        have IH := stripLoop_append_filter rest2 (pre ++ [y]) hp2 (adjOK_tail (adjOK_tail hadj))
        have h1 : pre ++ y :: rest2 = (pre ++ [y]) ++ rest2 := by simp
        have h2 : pre.length + 1 = (pre ++ [y]).length := by simp
        rw [h1, h2, IH]
        simp [List.filter_cons, hx, hy]
termination_by post _ _ _ => post.length

/-- C8 (amended): when no two adjacent units are both removable, strip_empty
(in place) behaves as a plain filter: afterwards every remaining unit has
non-empty stripped text and positive duration, and a second application changes
nothing. -/
theorem claim_C8_amended (l : List TextUnit) (h : adjOK l = true) :
    stripEmptyInPlace l = l.filter keepUnit
    ∧ stripEmptyInPlace (stripEmptyInPlace l) = stripEmptyInPlace l
    ∧ (stripEmptyInPlace l).all keepUnit = true := by
  have hfilt : ∀ (m : List TextUnit), adjOK m = true → stripEmptyInPlace m = m.filter keepUnit := by
    intro m hm
    have := stripLoop_append_filter m [] (by simp) hm
    simpa [stripEmptyInPlace, strip_empty] using this
  have h1 := hfilt l h
  have hall : ∀ x ∈ l.filter keepUnit, keepUnit x = true := by
    intro x hx
    exact (List.mem_filter.mp hx).2
  refine ⟨h1, ?_, ?_⟩
  · rw [h1, hfilt (l.filter keepUnit) (all_keep_adjOK _ hall)]
    exact List.filter_eq_self.mpr hall
  · rw [h1, List.all_eq_true]
    intro x hx
    exact hall x (by simpa using hx)

/-- Concrete instance of the amended C8: a removable unit surrounded by
keepable ones is filtered out, idempotently. -/
theorem claim_C8_witness :
    stripEmptyInPlace [⟨['a'], 1⟩, ⟨[], 1⟩, ⟨['b'], 2⟩] =
      List.filter keepUnit [⟨['a'], 1⟩, ⟨[], 1⟩, ⟨['b'], 2⟩]
    ∧ stripEmptyInPlace (stripEmptyInPlace [⟨['a'], 1⟩, ⟨[], 1⟩, ⟨['b'], 2⟩]) =
      stripEmptyInPlace [⟨['a'], 1⟩, ⟨[], 1⟩, ⟨['b'], 2⟩]
    ∧ (stripEmptyInPlace [⟨['a'], 1⟩, ⟨[], 1⟩, ⟨['b'], 2⟩]).all keepUnit = true :=
  claim_C8_amended [⟨['a'], 1⟩, ⟨[], 1⟩, ⟨['b'], 2⟩] (by decide)

/-- C8 counterexample: on two adjacent removable units ("" and " ") strip_empty
removes only the first one - the loop skips the element sliding into the
removed slot - so a unit with empty stripped text survives and a second
application still changes the list: strip_empty is neither idempotent nor
does it establish its postcondition. -/
theorem claim_C8_counterexample :
    stripEmptyInPlace (stripEmptyInPlace [⟨[], 1⟩, ⟨[' '], 2⟩]) ≠
      stripEmptyInPlace [⟨[], 1⟩, ⟨[' '], 2⟩]
    ∧ (stripEmptyInPlace [⟨[], 1⟩, ⟨[' '], 2⟩]).all keepUnit = false := by
  have e1 : stripEmptyInPlace [⟨[], 1⟩, ⟨[' '], 2⟩] = [⟨[' '], 2⟩] := by
    rw [stripEmptyInPlace, strip_empty]
    simp only []
    rw [stripLoop]
    simp +decide [keepUnit, pyStrip, List.erase, stripLoop]
  have e2 : stripEmptyInPlace [⟨[' '], 2⟩] = [] := by
    rw [stripEmptyInPlace, strip_empty]
    simp only []
    rw [stripLoop]
    simp +decide [keepUnit, pyStrip, List.erase, stripLoop]
  rw [e1, e2]
  constructor
  · simp
  · simp +decide [keepUnit, pyStrip]

/-! ## core.py: karaoke decomposition, Line.add_syls (lines 1390-1454) -/

/-- The regex character class \d (ASCII digits). -/
def isDigitChar (c : Char) : Bool := '0' ≤ c && c ≤ '9'

def isPrefixOfL : List Char → List Char → Bool
  | [], _ => true
  | _ :: _, [] => false
  | a :: as1, b :: bs => a == b && isPrefixOfL as1 bs

/-- Python str.replace: replace all non-overlapping occurrences left to right
(all patterns used here are nonempty).  Fuel-driven; the input length suffices
since every step consumes at least one character. -/
def replaceAllF (pat repl : List Char) : ℕ → List Char → List Char
  | 0, cs => cs
  | _, [] => []
  | fuel + 1, c :: rest =>
    if pat ≠ [] ∧ isPrefixOfL pat (c :: rest) = true then
      repl ++ replaceAllF pat repl fuel ((c :: rest).drop pat.length)
    else c :: replaceAllF pat repl fuel rest

def pyReplace (cs pat repl : List Char) : List Char := replaceAllF pat repl cs.length cs

/-- The preprocessing of add_syls (core.py line 1403):
raw_text.replace('\x7d\x7b', '').replace('\\k', '\x7d\x7b\\k').replace('\x7b\x7d', ''). -/
def preprocKs (raw : List Char) : List Char :=
  pyReplace
    (pyReplace (pyReplace raw ['\x7d', '\x7b'] []) ['\\', 'k'] ['\x7d', '\x7b', '\\', 'k'])
    ['\x7b', '\x7d'] []

/-- One match of the syldata regex: the four named groups. -/
structure KMatch where
  pretags : List Char
  kdur : List Char
  posttags : List Char
  syltext : List Char
deriving DecidableEq

/-- The regex fragment backslash [kK][of]? \d+ : the optional o/f is consumed
only when digits follow (as regex backtracking does, since o and f are not
digits), then a maximal nonempty digit run.  Returns the digits and the rest. -/
def matchKTag : List Char → Option (List Char × List Char)
  | '\\' :: c :: rest =>
    if c == 'k' || c == 'K' then
      match rest with
      | d :: rest2 =>
        if d == 'o' || d == 'f' then
          match rest2 with
          | e :: _ =>
            if isDigitChar e then
              some (rest2.takeWhile isDigitChar, rest2.dropWhile isDigitChar)
            else none
          | [] => none
        else if isDigitChar d then
          some (rest.takeWhile isDigitChar, rest.dropWhile isDigitChar)
        else none
      | [] => none
    else none
  | _ => none

/-- The regex fragment [^\x7d]*\x7d after the digits: the maximal run of
non-closing-brace characters, then the closing brace itself. -/
def matchPostClose (cs : List Char) : Option (List Char × List Char) :=
  match cs.dropWhile (fun c => c != '\x7d') with
  | '\x7d' :: rest => some (cs.takeWhile (fun c => c != '\x7d'), rest)
  | _ => none

/-- The lazy pretags group of the syldata regex: try the karaoke fragment at
the current position first, extending pretags one character at a time (the dot
does not match a newline) until karaoke digits, posttags and the closing brace
all match.  (Backtracking inside [of]? or \d+ cannot rescue a missing closing
brace, so extending pretags is the only backtracking that matters.) -/
def findKaraoke : List Char → List Char → Option (List Char × List Char × List Char × List Char)
  | _, [] => none
  | acc, c :: rest3 =>
    match matchKTag (c :: rest3) with
    | some (digits, rest) =>
      match matchPostClose rest with
      | some (post, rest2) => some (acc.reverse, digits, post, rest2)
      | none => if c == '\n' then none else findKaraoke (c :: acc) rest3
    | none => if c == '\n' then none else findKaraoke (c :: acc) rest3

/-- One anchored attempt of the syldata regex
(opening brace)(pretags lazy)(backslash kK)(of?)(digits)(posttags)(closing
brace)(syltext up to the next opening brace) at the head of the input.
Returns the match and the rest of the input. -/
def tryMatchSyl : List Char → Option (KMatch × List Char)
  | '\x7b' :: rest =>
    match findKaraoke [] rest with
    | some (pre, digits, post, rest2) =>
      some (⟨pre, digits, post, rest2.takeWhile (fun c => c != '\x7b')⟩,
        rest2.dropWhile (fun c => c != '\x7b'))
    | none => none
  | _ => none

/-- re.finditer of the syldata regex: scan left to right, attempting an
anchored match at each position; a successful match resumes after its end.
Fuel-driven; the input length suffices since every step consumes at least one
character. -/
def finditerSyl : ℕ → List Char → List KMatch
  | 0, _ => []
  | _, [] => []
  | fuel + 1, c :: rest =>
    match tryMatchSyl (c :: rest) with
    | some (m, rest2) => m :: finditerSyl fuel rest2
    | none => finditerSyl fuel rest

/-- The tuple ks of add_syls: all syldata matches of the preprocessed text. -/
def sylMatches (raw : List Char) : List KMatch :=
  finditerSyl (preprocKs raw).length (preprocKs raw)

/-- Python str.isspace(): nonempty and all whitespace. -/
def pyIsSpace (cs : List Char) : Bool := decide (cs ≠ []) && cs.all Char.isWhitespace

/-- The prespace/postspace regex of add_syls on the syllable text: on texts
without an inner newline it yields the maximal leading and trailing whitespace
runs; with an inner newline Python's match fails and the two slots stay unset
(modelled as none). -/
def ppMatch (cs : List Char) : Option ℕ × Option ℕ :=
  let rest := cs.dropWhile Char.isWhitespace
  let trail := (rest.reverse.takeWhile Char.isWhitespace).length
  let mid := rest.take (rest.length - trail)
  if mid.contains '\n' then (none, none)
  else (some (cs.takeWhile Char.isWhitespace).length, some trail)

/-- The Syllable fields produced by the add_syls loop (timing, text and word
bookkeeping; the measured extents come from the external font collaborator and
the inline tag sets are not needed by any claim). -/
structure SylRec where
  i : ℕ
  word_i : ℕ
  text : List Char
  prespace : Option ℕ
  postspace : Option ℕ
  start_time : ℚ
  end_time : ℚ
  duration : ℚ
deriving DecidableEq

/-- int() on a run of decimal digits. -/
def parseNatDigits (cs : List Char) : ℕ :=
  cs.foldl (fun n c => n * 10 + (c.toNat - '0'.toNat)) 0

/-- The syllable building loop of add_syls (core.py lines 1405-1454): the
running start time begins at Time(0.0); each syllable gets the current word
index, spans int(kdur)/100 seconds from the previous end, and the word index
increments after a syllable whose text ends with a space or whose successor's
text starts with one. -/
def buildSyls : ℕ → ℕ → ℚ → List KMatch → List SylRec
  | _, _, _, [] => []
  | si, word_i, last_time, k0 :: ks =>
    let text := k0.syltext
    let pp : Option ℕ × Option ℕ :=
      if text.isEmpty || pyIsSpace text then (some 0, some 0) else ppMatch text
    let word_i2 : ℕ :=
      if text.getLast? == some ' '
          || (match ks with
              | k1 :: _ => k1.syltext.head? == some ' '
              | [] => false) then
        word_i + 1
      else word_i
    let kd : ℚ := (parseNatDigits k0.kdur : ℚ) / 100
    ⟨si, word_i, text, pp.1, pp.2, last_time, last_time + kd, kd⟩ ::
      buildSyls (si + 1) word_i2 (last_time + kd) ks

/-! ## core.py: Line.from_text (lines 1147-1216), fix_timestamps=False path -/

/-- Python str.split with a single-character separator. -/
def splitOnChar (sep : Char) : List Char → List (List Char)
  | [] => [[]]
  | c :: rest =>
    if c == sep then [] :: splitOnChar sep rest
    else
      match splitOnChar sep rest with
      | g :: groups => (c :: g) :: groups
      | [] => [[c]]

/-- A nonempty run of ASCII digits. -/
def allDigits (cs : List Char) : Bool := decide (cs ≠ []) && cs.all isDigitChar

/-- Modelled from the spec: Time.from_ts of the ptime module (not under src/)
parses an already-rounded ASS timestamp H:MM:SS.CC into seconds; malformed
timestamp text is a fatal parse error (none). -/
def Time.from_ts (cs : List Char) : Option ℚ :=
  match splitOnChar ':' cs with
  | [h, m, sec] =>
    match splitOnChar '.' sec with
    | [ss, cc] =>
      if allDigits h && allDigits m && allDigits ss && allDigits cc then
        some ((parseNatDigits h : ℚ) * 3600 + (parseNatDigits m : ℚ) * 60
          + (parseNatDigits ss : ℚ) + (parseNatDigits cc : ℚ) / ((10 ^ cc.length : ℕ) : ℚ))
      else none
    | _ => none
  | _ => none

/-- int() on a decimal string (sign and digits), for layer and margins. -/
def parseInt (cs : List Char) : Option ℤ :=
  match cs with
  | '-' :: rest => if allDigits rest then some (-(parseNatDigits rest : ℤ)) else none
  | _ => if allDigits cs then some ((parseNatDigits cs : ℤ)) else none

/-- The Line fields produced by Line.from_text. -/
structure LineRec where
  i : ℕ
  comment : Bool
  layer : ℤ
  start_time : ℚ
  end_time : ℚ
  duration : ℚ
  styleName : List Char
  actor : List Char
  margin_l : ℤ
  margin_r : ℤ
  margin_v : ℤ
  effect : List Char
  raw_text : List Char
deriving DecidableEq

/-- Line.from_text (core.py lines 1147-1216) on the fix_timestamps=False path:
match (Dialogue|Comment): , split the remainder (one line, no interior
newline) on commas; fields 0-8 are layer, start, end, style name, actor, the
three margins and the effect; the raw text is the comma-join of the remaining
fields; duration is end minus start through the clamped Time subtraction.
An unmatched line or an unparsable field is fatal (none). -/
def Line.from_text_raw (text : List Char) (i : ℕ) : Option LineRec :=
  let hd : Option (Bool × List Char) :=
    if isPrefixOfL ("Dialogue: ".data) text then some (false, text.drop 10)
    else if isPrefixOfL ("Comment: ".data) text then some (true, text.drop 9)
    else none
  match hd with
  | none => none
  | some (isComment, rest0) =>
    let rest := if rest0.getLast? == some '\n' then rest0.dropLast else rest0
    if rest.contains '\n' || rest.isEmpty then none
    else
      match splitOnChar ',' rest with
      | l0 :: l1 :: l2 :: l3 :: l4 :: l5 :: l6 :: l7 :: l8 :: restFields =>
        match parseInt l0, Time.from_ts l1, Time.from_ts l2,
            parseInt l5, parseInt l6, parseInt l7 with
        | some layer, some st, some et, some ml, some mr, some mv =>
          some ⟨i, isComment, layer, st, et, tsub et st, l3, l4, ml, mr, mv, l8,
            List.intercalate [','] restFields⟩
        | _, _, _, _, _, _ => none
      | _ => none

/-- add_syls applied to one parsed line: syllables are built from the karaoke
matches of the preprocessed raw text, starting at time 0. -/
def line_add_syls (line : LineRec) : List SylRec :=
  buildSyls 0 0 0 (sylMatches line.raw_text)

/-! ## Claim theorems C1 and C3 -/

theorem buildSyls_chain (ks : List KMatch) :
    ∀ (si wi : ℕ) (t0 : ℚ),
      List.Chain' (fun a b => a.end_time = b.start_time) (buildSyls si wi t0 ks) := by
  induction ks with
  | nil =>
    intro si wi t0
    simp [buildSyls]
  | cons k0 ks' ih =>
    intro si wi t0
    simp only [buildSyls]
    rw [List.chain'_cons']
    refine ⟨?_, ih _ _ _⟩
    intro b hb
    cases ks' with
    | nil => simp [buildSyls] at hb
    | cons k1 ks'' =>
      simp only [buildSyls, List.head?_cons, Option.mem_def, Option.some.injEq] at hb
      subst hb
      rfl

theorem buildSyls_sum (ks : List KMatch) :
    ∀ (si wi : ℕ) (t0 : ℚ),
      ((buildSyls si wi t0 ks).map SylRec.duration).sum + t0 =
        ((buildSyls si wi t0 ks).map SylRec.end_time).getLastD t0 := by
  induction ks with
  | nil =>
    intro si wi t0
    simp [buildSyls]
  | cons k0 ks' ih =>
    intro si wi t0
    simp only [buildSyls, List.map_cons, List.sum_cons, List.getLastD_cons]
    rw [← ih (si + 1) _ (t0 + (parseNatDigits k0.kdur : ℚ) / 100)]
    ring

/-- C1 (amended): for every line decomposed by add_syls into N >= 1 syllables,
the syllable intervals are contiguous and ordered - syl[i].end_time equals
syl[i+1].start_time and the first syllable starts at time 0 - and the sum of
all syllable durations equals the last syllable's end time, i.e. the total
karaoke time, which need not equal the line's duration. -/
theorem claim_C1_amended (ks : List KMatch) (h : ks ≠ []) :
    List.Chain' (fun a b => a.end_time = b.start_time) (buildSyls 0 0 0 ks)
    ∧ (buildSyls 0 0 0 ks).head?.map SylRec.start_time = some 0
    ∧ ((buildSyls 0 0 0 ks).map SylRec.duration).sum =
      ((buildSyls 0 0 0 ks).map SylRec.end_time).getLastD 0 := by
  refine ⟨buildSyls_chain ks 0 0 0, ?_, ?_⟩
  · cases ks with
    | nil => exact absurd rfl h
    | cons k0 ks' => rfl
  · have := buildSyls_sum ks 0 0 0
    simpa using this

/-- Concrete instance of the amended C1 on two karaoke matches of 50 and 30
centiseconds. -/
theorem claim_C1_witness :
    List.Chain' (fun a b => a.end_time = b.start_time)
      (buildSyls 0 0 0 [⟨[], ['5', '0'], [], ("Hel".data)⟩, ⟨[], ['3', '0'], [], ("lo".data)⟩])
    ∧ (buildSyls 0 0 0
        [⟨[], ['5', '0'], [], ("Hel".data)⟩, ⟨[], ['3', '0'], [], ("lo".data)⟩]).head?.map
        SylRec.start_time = some 0
    ∧ ((buildSyls 0 0 0
        [⟨[], ['5', '0'], [], ("Hel".data)⟩, ⟨[], ['3', '0'], [], ("lo".data)⟩]).map
        SylRec.duration).sum =
      ((buildSyls 0 0 0
        [⟨[], ['5', '0'], [], ("Hel".data)⟩, ⟨[], ['3', '0'], [], ("lo".data)⟩]).map
        SylRec.end_time).getLastD 0 :=
  claim_C1_amended [⟨[], ['5', '0'], [], ("Hel".data)⟩, ⟨[], ['3', '0'], [], ("lo".data)⟩]
    (by simp)

/-- The end-to-end scenario line of the spec, fix_timestamps=False. -/
def c3text : List Char :=
  ("Dialogue: 0,0:00:01.00,0:00:03.00,Default,,0,0,0,," ++ "\x7b\\k50\x7dHel\x7b\\k50\x7dlo").data

/-- C1 counterexample: on the end-to-end scenario line the syllable durations
sum to 1 second while the line's duration is 2 seconds, so the claimed
equality of the two fails (far beyond floating-point tolerance). -/
theorem claim_C1_counterexample :
    (Line.from_text_raw c3text 0).map (fun l => ((line_add_syls l).map SylRec.duration).sum)
      = some 1
    ∧ (Line.from_text_raw c3text 0).map LineRec.duration = some 2
    ∧ (1 : ℚ) ≠ 2 := by
  refine ⟨?_, ?_, by norm_num⟩
  · show some (((50:ℕ):ℚ)/100 + (((50:ℕ):ℚ)/100 + 0)) = some 1
    norm_num
  · show some (tsub
        (((0:ℕ):ℚ) * 3600 + ((0:ℕ):ℚ) * 60 + ((3:ℕ):ℚ) + ((0:ℕ):ℚ) / ((100:ℕ):ℚ))
        (((0:ℕ):ℚ) * 3600 + ((0:ℕ):ℚ) * 60 + ((1:ℕ):ℚ) + ((0:ℕ):ℚ) / ((100:ℕ):ℚ))) = some 2
    rw [tsub]
    norm_num

/-- C3: parsing the scenario line at fix_timestamps=False and running add_syls
yields exactly 2 syllables with texts "Hel" and "lo", each 0.5 seconds long,
and a line duration of 2 seconds. -/
theorem claim_C3 :
    (Line.from_text_raw c3text 0).map (fun l => (line_add_syls l).length) = some 2
    ∧ (Line.from_text_raw c3text 0).map (fun l => (line_add_syls l).map SylRec.text)
      = some ["Hel".data, "lo".data]
    ∧ (Line.from_text_raw c3text 0).map (fun l => (line_add_syls l).map SylRec.duration)
      = some [1/2, 1/2]
    ∧ (Line.from_text_raw c3text 0).map LineRec.duration = some 2 := by
  refine ⟨by decide, by decide, ?_, ?_⟩
  · show some [((50:ℕ):ℚ)/100, ((50:ℕ):ℚ)/100] = some [1/2, 1/2]
    norm_num
  · show some (tsub
        (((0:ℕ):ℚ) * 3600 + ((0:ℕ):ℚ) * 60 + ((3:ℕ):ℚ) + ((0:ℕ):ℚ) / ((100:ℕ):ℚ))
        (((0:ℕ):ℚ) * 3600 + ((0:ℕ):ℚ) * 60 + ((1:ℕ):ℚ) + ((0:ℕ):ℚ) / ((100:ℕ):ℚ))) = some 2
    rw [tsub]
    norm_num

/-! ## core.py: the Meta schema marshaller (_MetaData, lines 502-540) -/

/-- A field value of a ScriptInfo / ProjectGarbage record. -/
inductive FieldVal where
  | vstr : List Char → FieldVal
  | vint : ℤ → FieldVal
  | vfloat : ℚ → FieldVal
deriving DecidableEq

/-- The declared value type of a slot (evaluated from the annotation). -/
inductive Codec where
  | cstr
  | cint
  | cfloat
  | cassbool
deriving DecidableEq

/-- One slot of a _MetaData record: its snake_case slot name (which may begin
with an underscore for property-backed fields) and its value type. -/
structure MDSlot where
  sname : List Char
  codec : Codec
deriving DecidableEq

/-- Python float() on the decimal core (optional sign, digits, optional point
and fractional digits); exponents, inf/nan, surrounding whitespace and digit
underscores are outside the exact-rational float model. -/
def parseFloatAbs (cs : List Char) : Option ℚ :=
  match splitOnChar '.' cs with
  | [ip] => if allDigits ip then some ((parseNatDigits ip : ℚ)) else none
  | [ip, fp] =>
    if (ip.all isDigitChar && fp.all isDigitChar) && !(ip.isEmpty && fp.isEmpty) then
      some ((parseNatDigits ip : ℚ) + (parseNatDigits fp : ℚ) / ((10 : ℚ) ^ fp.length))
    else none
  | _ => none

def parseFloat (cs : List Char) : Option ℚ :=
  match cs with
  | '-' :: rest => (parseFloatAbs rest).map (fun q => -q)
  | _ => parseFloatAbs cs

/-- The fractional decimal digits of a rational in [0, 1), fuel-bounded (a
machine float always has a finite decimal expansion). -/
def fracDigits : ℕ → ℚ → List Char
  | 0, _ => []
  | fuel + 1, f =>
    if f = 0 then []
    else
      let d := (⌊f * 10⌋).toNat
      Char.ofNat ('0'.toNat + d) :: fracDigits fuel (f * 10 - (d : ℚ))

/-- Python repr of a non-negative float within the exact-rational convention:
the integer part, a point, and the fractional digits (at least one, so an
integral float renders as n.0). -/
def renderFloatAbs (q : ℚ) : List Char :=
  let fr := fracDigits 64 (q - (⌊q⌋ : ℚ))
  (toString (⌊q⌋.toNat)).data ++ '.' :: (if fr.isEmpty then ['0'] else fr)

/-- Python f-string rendering of a float value, repr-style. -/
def renderFloat (q : ℚ) : List Char :=
  if q < 0 then '-' :: renderFloatAbs (-q) else renderFloatAbs q

/-- eval(annotation)(value): str is the identity, int and float parse decimal
text and are fatal on failure.  AssBool is Modelled from the spec (the ptypes
module is not under src/): a tri-state yes/no value class keeping its textual
value. -/
def coerceVal : Codec → List Char → Option FieldVal
  | Codec.cstr, v => some (FieldVal.vstr v)
  | Codec.cint, v => (parseInt v).map FieldVal.vint
  | Codec.cfloat, v => (parseFloat v).map FieldVal.vfloat
  | Codec.cassbool, v => some (FieldVal.vstr v)

/-- The f-string rendering of a value in as_text. -/
def renderVal : FieldVal → List Char
  | FieldVal.vstr s => s
  | FieldVal.vint n => (toString n).data
  | FieldVal.vfloat q => renderFloat q

def isUpperAZ (c : Char) : Bool := 'A' ≤ c && c ≤ 'Z'

/-- The regex (?<!^)(?=[A-Z]) substituted by an underscore: an underscore
before each uppercase letter that is not the first character. -/
def insertUnders : Bool → List Char → List Char
  | _, [] => []
  | atStart, c :: rest =>
    (if isUpperAZ c && !atStart then ['_', c] else [c]) ++ insertUnders false rest

/-- The key transform of from_text (core.py line 519):
k.replace(' ', '_'), underscore insertion before inner uppercase, lowercase. -/
def pySnake (k : List Char) : List Char :=
  (insertUnders true (k.map (fun c => if c == ' ' then '_' else c))).map Char.toLower

/-- Python str.title() on one chunk without separators inside. -/
def pyTitleWord : List Char → List Char
  | [] => []
  | c :: rest => Char.toUpper c :: rest.map Char.toLower

/-- The wire-key reconstruction of as_text (core.py lines 535-538):
for w in k.split('_'): if not w: w = ' '; out += w.title(). -/
def keyReconstruct (sname : List Char) : List Char :=
  ((splitOnChar '_' sname).map (fun w => if w.isEmpty then [' '] else pyTitleWord w)).flatten

/-- The per-line regex of from_text, (?P<name>.*): (?P<value>.*) anchored to
the whole line: the greedy name group splits the line at its last ': '
occurrence; a line without ': ' yields no match. -/
def colonHere (c : Char) (rest : List Char) : Option (List Char × List Char) :=
  if c == ':' then
    if rest.head? == some ' ' then some ([], rest.tail) else none
  else none

def lastColonSplit : List Char → Option (List Char × List Char)
  | [] => none
  | c :: rest =>
    match lastColonSplit rest with
    | some (n, v) => some (c :: n, v)
    | none => colonHere c rest

/-- re.finditer of the line regex with MULTILINE: per line of the text, in
order. -/
def parsePairs (text : List Char) : List (List Char × List Char) :=
  (splitOnChar '\n' text).filterMap lastColonSplit

/-- One Key: Value assignment of _MetaData.from_text (core.py lines 515-524):
if the transformed key is a slot name the value is coerced with the slot's
annotation and assigned; otherwise, if the underscored key is a slot (the
__slots_ex__ property exposure - Modelled from the spec, AutoSlots lives in
the ptypes module which is not under src/), the property setter stores the
coerced value into the underscored slot; unknown keys are skipped; a failed
coercion aborts the whole record (fatal). -/
def mdSetPair (schema : List MDSlot) (rec : List (Option FieldVal))
    (kv : List Char × List Char) : Option (List (Option FieldVal)) :=
  let k := pySnake kv.1
  match schema.findIdx? (fun s => s.sname == k) with
  | some i =>
    match schema[i]? with
    | some slot => (coerceVal slot.codec kv.2).map (fun fv => rec.set i (some fv))
    | none => none
  | none =>
    match schema.findIdx? (fun s => s.sname == '_' :: k) with
    | some i =>
      match schema[i]? with
      | some slot => (coerceVal slot.codec kv.2).map (fun fv => rec.set i (some fv))
      | none => none
    | none => some rec

/-- _MetaData.from_text: fold the parsed Key: Value pairs over a fresh record
(all slots unset). -/
def mdFromText (schema : List MDSlot) (text : List Char) :
    Option (List (Option FieldVal)) :=
  (parsePairs text).foldlM (mdSetPair schema) (List.replicate schema.length none)

/-- The text emitted by as_text for one slot: nothing when the slot is unset
or its name starts with an underscore, else the reconstructed wire key, a
colon-space, the rendered value and a newline. -/
def segOf (sr : MDSlot × Option FieldVal) : List Char :=
  match sr.2 with
  | none => []
  | some v =>
    if sr.1.sname.head? == some '_' then []
    else keyReconstruct sr.1.sname ++ (':' :: ' ' :: renderVal v) ++ ['\n']

/-- _MetaData.as_text (core.py lines 526-540): the optional '; '-joined leading
comment, then one Name: Value line per assigned slot in slot declaration
order, skipping underscore-prefixed slots. -/
def mdAsText (schema : List MDSlot) (comment : List (List Char))
    (rec : List (Option FieldVal)) : List Char :=
  (if !comment.isEmpty then List.intercalate (';' :: [' ']) comment ++ ['\n'] else [])
  ++ ((schema.zip rec).map segOf).flatten

/-- The ScriptInfo schema (core.py lines 543-575), slots in declaration order. -/
def ScriptInfo_slots : List MDSlot := [
  ⟨"title".data, Codec.cstr⟩,
  ⟨"script_type".data, Codec.cstr⟩,
  ⟨"wrap_style".data, Codec.cint⟩,
  ⟨"_scaled_border_and_shadow".data, Codec.cassbool⟩,
  ⟨"y_cb_cr__matrix".data, Codec.cstr⟩,
  ⟨"play_res_x".data, Codec.cint⟩,
  ⟨"play_res_y".data, Codec.cint⟩,
  ⟨"original__script".data, Codec.cstr⟩,
  ⟨"original__translation".data, Codec.cstr⟩,
  ⟨"original__editing".data, Codec.cstr⟩,
  ⟨"original__timing".data, Codec.cstr⟩,
  ⟨"synch__point".data, Codec.cstr⟩,
  ⟨"script__updated__by".data, Codec.cstr⟩,
  ⟨"update__details".data, Codec.cstr⟩]

/-- The ProjectGarbage schema (core.py lines 601-614), slots in declaration
order. -/
def ProjectGarbage_slots : List MDSlot := [
  ⟨"automation__scripts".data, Codec.cstr⟩,
  ⟨"export__encoding".data, Codec.cstr⟩,
  ⟨"last__style__storage".data, Codec.cstr⟩,
  ⟨"audio__file".data, Codec.cstr⟩,
  ⟨"video__file".data, Codec.cstr⟩,
  ⟨"video__a_r__mode".data, Codec.cint⟩,
  ⟨"video__a_r__value".data, Codec.cfloat⟩,
  ⟨"video__zoom__percent".data, Codec.cfloat⟩,
  ⟨"video__position".data, Codec.cint⟩,
  ⟨"active__line".data, Codec.cint⟩,
  ⟨"keyframes__file".data, Codec.cstr⟩]

/-- C2 counterexample: the text "ScriptType: v4.00+\nTitle: abc\n" uses only
recognized ScriptInfo keys, but decoding and re-encoding emits the fields in
slot declaration order, producing "Title: abc\nScriptType: v4.00+\n" - the key
order differs from the input, so the round-trip is not byte-identical. -/
theorem claim_C2_counterexample :
    mdFromText ScriptInfo_slots (("ScriptType: v4.00+\nTitle: abc\n").data)
      = some ([some (FieldVal.vstr ("abc".data)), some (FieldVal.vstr ("v4.00+".data))]
        ++ List.replicate 12 none)
    ∧ mdAsText ScriptInfo_slots []
        ([some (FieldVal.vstr ("abc".data)), some (FieldVal.vstr ("v4.00+".data))]
          ++ List.replicate 12 none)
      = ("Title: abc\nScriptType: v4.00+\n").data
    ∧ ("Title: abc\nScriptType: v4.00+\n").data ≠ ("ScriptType: v4.00+\nTitle: abc\n").data := by
  refine ⟨by decide, by decide, by decide⟩

/-- An occurrence of ": " (colon space) somewhere in the text. -/
def hasCS : List Char → Bool
  | [] => false
  | c :: rest => (c == ':' && rest.head? == some ' ') || hasCS rest

/-- A newline somewhere in the text. -/
def hasNL (l : List Char) : Bool := l.any (fun c => c == '\n')

/-- A wire key round-trips through the line regex: no ": " inside, no newline,
not ending in a colon. -/
def keyClean (k : List Char) : Bool :=
  !hasCS k && !hasNL k && !(k.getLast? == some ':')

/-- A rendered value survives the line regex: no ": " inside, no newline. -/
def lineSafe (v : List Char) : Bool := !hasCS v && !hasNL v

/-- A well-formed slot assignment: unset, or set on a non-property slot with a
line-safe canonical rendering that re-coerces to the same value. -/
def wfEntry : MDSlot → Option FieldVal → Bool
  | _, none => true
  | slot, some v =>
    !(slot.sname.head? == some '_') && lineSafe (renderVal v)
      && decide (coerceVal slot.codec (renderVal v) = some v)

/-- A well-formed record over a schema. -/
def wfRec (schema : List MDSlot) (rec : List (Option FieldVal)) : Bool :=
  decide (rec.length = schema.length) && (schema.zip rec).all (fun sr => wfEntry sr.1 sr.2)

/-- Schema sanity: every non-property slot has a clean reconstructed wire key
that transforms back to the slot name. -/
def schemaOK (schema : List MDSlot) : Bool :=
  schema.all (fun s => (s.sname.head? == some '_')
    || (keyClean (keyReconstruct s.sname) && (pySnake (keyReconstruct s.sname) == s.sname)))

/-- Schema sanity: looking a slot's name up by findIdx? returns its own index
(slot names are unambiguous). -/
def schemaIdxOK (schema : List MDSlot) : Bool :=
  (List.range schema.length).all (fun i =>
    match schema[i]? with
    | some slot => schema.findIdx? (fun s => s.sname == slot.sname) == some i
    | none => true)

/-- The Key/Value pair a set slot contributes on the wire. -/
def pairOf (sr : MDSlot × Option FieldVal) : Option (List Char × List Char) :=
  match sr.2 with
  | none => none
  | some v => some (keyReconstruct sr.1.sname, renderVal v)

/-- The record state after the from_text fold processes the emitted pairs of a
schema/record suffix starting at absolute slot index o. -/
def overlayZ : ℕ → List (MDSlot × Option FieldVal) → List (Option FieldVal) →
    List (Option FieldVal)
  | _, [], racc => racc
  | o, (_, none) :: z, racc => overlayZ (o + 1) z racc
  | o, (_, some v) :: z, racc => overlayZ (o + 1) z (racc.set o (some v))

theorem splitOnChar_append (sep : Char) (line rest : List Char)
    (h : ∀ c ∈ line, c ≠ sep) :
    splitOnChar sep (line ++ sep :: rest) = line :: splitOnChar sep rest := by
  induction line with
  | nil => simp [splitOnChar]
  | cons c line' ih =>
    have hc : c ≠ sep := h c (by simp)
    have h' : ∀ x ∈ line', x ≠ sep := fun x hx => h x (by simp [hx])
    simp only [List.cons_append, splitOnChar, List.append_eq]
    rw [if_neg (by simpa using hc), ih h']

theorem lastColonSplit_cons (c : Char) (rest : List Char) :
    lastColonSplit (c :: rest) =
      match lastColonSplit rest with
      | some (n, v) => some (c :: n, v)
      | none => colonHere c rest := rfl

theorem colonHere_none (c : Char) (rest : List Char)
    (h : ¬(c = ':' ∧ rest.head? = some ' ')) : colonHere c rest = none := by
  rw [colonHere]
  by_cases hc : c = ':'
  · subst hc
    rw [if_pos (by simp)]
    have hh : rest.head? ≠ some ' ' := fun hx => h ⟨rfl, hx⟩
    rw [if_neg (by simpa using hh)]
  · rw [if_neg (by simpa using hc)]

theorem colonHere_space (c : Char) (v : List Char) (hc : c = ':') :
    colonHere c (' ' :: v) = some ([], v) := by
  subst hc
  rw [colonHere, if_pos (by simp), if_pos (by simp)]
  rfl

theorem lastColonSplit_none (l : List Char) (h : hasCS l = false) :
    lastColonSplit l = none := by
  induction l with
  | nil => rfl
  | cons c rest ih =>
    rw [hasCS] at h
    simp only [Bool.or_eq_false_iff, Bool.and_eq_false_iff] at h
    rw [lastColonSplit_cons, ih h.2]
    dsimp only
    apply colonHere_none
    rintro ⟨hc, hh⟩
    rcases h.1 with hx | hx
    · subst hc
      simp at hx
    · rw [hh] at hx
      simp at hx

theorem lastColonSplit_emit (key v : List Char)
    (hk : hasCS key = false) (hke : key.getLast? ≠ some ':') (hv : hasCS v = false) :
    lastColonSplit (key ++ ':' :: ' ' :: v) = some (key, v) := by
  induction key with
  | nil =>
    rw [List.nil_append, lastColonSplit_cons]
    have hnone : lastColonSplit (' ' :: v) = none := by
      apply lastColonSplit_none
      rw [hasCS]
      simp [hv]
    rw [hnone]
    dsimp only
    exact colonHere_space ':' v rfl
  | cons c key' ih =>
    have hk' : hasCS key' = false := by
      rw [hasCS] at hk
      simp only [Bool.or_eq_false_iff] at hk
      exact hk.2
    have hke' : key'.getLast? ≠ some ':' := by
      cases key' with
      | nil => simp
      | cons d key'' =>
        rw [List.getLast?_cons_cons] at hke
        exact hke
    rw [List.cons_append, lastColonSplit_cons, ih hk' hke']

theorem hasNL_forall {l : List Char} (h : hasNL l = false) : ∀ c ∈ l, c ≠ '\n' := by
  intro c hc he
  rw [hasNL, List.any_eq_false] at h
  exact h c hc (by simp [he])

theorem parsePairs_segs (z : List (MDSlot × Option FieldVal))
    (hw : ∀ sr ∈ z, wfEntry sr.1 sr.2 = true)
    (hk : ∀ sr ∈ z, (sr.1.sname.head? == some '_') = true
        ∨ keyClean (keyReconstruct sr.1.sname) = true) :
    parsePairs ((z.map segOf).flatten) = z.filterMap pairOf := by
  induction z with
  | nil => rfl
  | cons sr z' ih =>
    have hw0 := hw sr (List.mem_cons_self _ _)
    have ih' := ih (fun x hx => hw x (List.mem_cons_of_mem _ hx))
      (fun x hx => hk x (List.mem_cons_of_mem _ hx))
    obtain ⟨slot, val⟩ := sr
    cases val with
    | none => simpa [segOf, pairOf] using ih'
    | some v =>
      simp only [wfEntry, Bool.and_eq_true, Bool.not_eq_true', decide_eq_true_eq] at hw0
      obtain ⟨⟨hund, hsafe⟩, hco⟩ := hw0
      have hkc : keyClean (keyReconstruct slot.sname) = true := by
        rcases hk (slot, some v) (List.mem_cons_self _ _) with hx | hx
        · rw [hund] at hx
          exact absurd hx (by simp)
        · exact hx
      simp only [keyClean, Bool.and_eq_true, Bool.not_eq_true'] at hkc
      obtain ⟨⟨hkcs, hknl⟩, hkl⟩ := hkc
      simp only [lineSafe, Bool.and_eq_true, Bool.not_eq_true'] at hsafe
      obtain ⟨hvcs, hvnl⟩ := hsafe
      have hkl' : (keyReconstruct slot.sname).getLast? ≠ some ':' := by
        simpa using hkl
      have hNoNL : ∀ c ∈ keyReconstruct slot.sname ++ ':' :: ' ' :: renderVal v, c ≠ '\n' := by
        intro c hc
        rcases List.mem_append.mp hc with hc | hc
        · exact hasNL_forall hknl c hc
        · rcases hc with _ | ⟨_, hc⟩
          · decide
          · rcases hc with _ | ⟨_, hc⟩
            · decide
            · exact hasNL_forall hvnl c hc
      have hflat : (((slot, some v) :: z').map segOf).flatten
          = (keyReconstruct slot.sname ++ ':' :: ' ' :: renderVal v)
            ++ '\n' :: (z'.map segOf).flatten := by
        simp [segOf, hund, List.append_assoc]
      rw [hflat, parsePairs, splitOnChar_append '\n' _ _ hNoNL, List.filterMap_cons,
        lastColonSplit_emit _ _ hkcs hkl' hvcs]
      rw [List.filterMap_cons]
      show _ = match pairOf (slot, some v) with
        | none => List.filterMap pairOf z'
        | some b => b :: List.filterMap pairOf z'
      rw [show pairOf (slot, some v)
        = some (keyReconstruct slot.sname, renderVal v) from rfl]
      rw [← ih']
      rfl

theorem foldlM_overlay (schema : List MDSlot)
    (hOK : schemaOK schema = true) (hIdx : schemaIdxOK schema = true) :
    ∀ (s2 : List MDSlot) (r2 : List (Option FieldVal)) (o : ℕ)
      (racc : List (Option FieldVal)),
      (∀ k : ℕ, s2[k]? = schema[o + k]?) →
      (∀ sr ∈ s2.zip r2, wfEntry sr.1 sr.2 = true) →
      List.foldlM (mdSetPair schema) racc ((s2.zip r2).filterMap pairOf) =
        some (overlayZ o (s2.zip r2) racc) := by
  intro s2
  induction s2 with
  | nil =>
    intro r2 o racc _ _
    simp [overlayZ]
  | cons sl s2' ih =>
    intro r2 o racc hk hw
    cases r2 with
    | nil => simp [overlayZ]
    | cons rv r2' =>
      rw [List.zip_cons_cons]
      have hk0 : schema[o]? = some sl := by
        have := hk 0
        simpa using this.symm
      have hks : ∀ k : ℕ, s2'[k]? = schema[o + 1 + k]? := by
        intro k
        have := hk (k + 1)
        rw [show o + (k + 1) = o + 1 + k by omega] at this
        simpa using this
      have hwt : ∀ sr ∈ s2'.zip r2', wfEntry sr.1 sr.2 = true :=
        fun sr hsr => hw sr (by rw [List.zip_cons_cons]; exact List.mem_cons_of_mem _ hsr)
      cases rv with
      | none =>
        rw [show overlayZ o ((sl, none) :: s2'.zip r2') racc
          = overlayZ (o + 1) (s2'.zip r2') racc from rfl]
        rw [List.filterMap_cons]
        exact ih r2' (o + 1) racc hks hwt
      | some v =>
        have hwf : wfEntry sl (some v) = true :=
          hw (sl, some v) (by rw [List.zip_cons_cons]; exact List.mem_cons_self _ _)
        simp only [wfEntry, Bool.and_eq_true, Bool.not_eq_true', decide_eq_true_eq] at hwf
        obtain ⟨⟨hund, _⟩, hco⟩ := hwf
        have hmem : sl ∈ schema := List.getElem?_mem hk0
        have hsOK := (List.all_eq_true.mp hOK) sl hmem
        have hsnake : pySnake (keyReconstruct sl.sname) = sl.sname := by
          rw [hund] at hsOK
          simp only [Bool.false_or, Bool.and_eq_true, beq_iff_eq] at hsOK
          exact hsOK.2
        have holt : o < schema.length := by
          have := List.getElem?_eq_some.mp hk0
          exact this.1
        have hfind : schema.findIdx? (fun s => s.sname == sl.sname) = some o := by
          have hmem2 : o ∈ List.range schema.length := List.mem_range.mpr holt
          have := (List.all_eq_true.mp hIdx) o hmem2
          rw [hk0] at this
          simpa using this
        have hstep : mdSetPair schema racc (keyReconstruct sl.sname, renderVal v)
            = some (racc.set o (some v)) := by
          rw [mdSetPair]
          dsimp only
          rw [hsnake, hfind]
          dsimp only
          rw [hk0]
          dsimp only
          rw [hco]
          rfl
        rw [show overlayZ o ((sl, some v) :: s2'.zip r2') racc
          = overlayZ (o + 1) (s2'.zip r2') (racc.set o (some v)) from rfl]
        rw [List.filterMap_cons]
        rw [show pairOf (sl, some v)
          = some (keyReconstruct sl.sname, renderVal v) from rfl]
        rw [List.foldlM_cons, hstep]
        show List.foldlM (mdSetPair schema) (racc.set o (some v))
            ((s2'.zip r2').filterMap pairOf) = _
        exact ih r2' (o + 1) (racc.set o (some v)) hks hwt

theorem overlayZ_spec :
    ∀ (s2 : List MDSlot) (r2 : List (Option FieldVal)) (o : ℕ)
      (racc : List (Option FieldVal)),
      r2.length = s2.length →
      racc.length = o + r2.length →
      racc.drop o = List.replicate r2.length none →
      overlayZ o (s2.zip r2) racc = racc.take o ++ r2 := by
  intro s2
  induction s2 with
  | nil =>
    intro r2 o racc hlen hracc _
    have hr2 : r2 = [] := List.length_eq_zero.mp (by simpa using hlen)
    subst hr2
    rw [show overlayZ o (([] : List MDSlot).zip ([] : List (Option FieldVal))) racc
      = racc from rfl]
    rw [List.append_nil, List.take_of_length_le (by simp at hracc; omega)]
  | cons sl s2' ih =>
    intro r2 o racc hlen hracc hdrop
    cases r2 with
    | nil => simp at hlen
    | cons rv r2' =>
      rw [List.zip_cons_cons]
      have hlen' : r2'.length = s2'.length := by simpa using hlen
      simp only [List.length_cons] at hracc
      have holt : o < racc.length := by omega
      have hgo : racc[o]? = some none := by
        have := congrArg (fun l => l[0]?) hdrop
        simp only [List.getElem?_drop] at this
        simpa using this
      have hdrop1 : racc.drop (o + 1) = List.replicate r2'.length none := by
        have h1 : racc.drop (o + 1) = (racc.drop o).drop 1 := by
          rw [List.drop_drop]
        rw [h1, hdrop]
        simp [List.replicate]
      cases rv with
      | none =>
        rw [show overlayZ o ((sl, none) :: s2'.zip r2') racc
          = overlayZ (o + 1) (s2'.zip r2') racc from rfl]
        rw [ih r2' (o + 1) racc hlen' (by omega) hdrop1]
        rw [List.take_succ, hgo]
        simp
      | some v =>
        have hset_len : (racc.set o (some v)).length = o + 1 + r2'.length := by
          simp only [List.length_set]
          omega
        have hset_drop : (racc.set o (some v)).drop (o + 1) = racc.drop (o + 1) := by
          apply List.ext_getElem?
          intro j
          rw [List.getElem?_drop, List.getElem?_drop, List.getElem?_set]
          rw [if_neg (by omega)]
        have hset_take : (racc.set o (some v)).take o = racc.take o := by
          apply List.ext_getElem?
          intro j
          rw [List.getElem?_take, List.getElem?_take]
          split
          · rw [List.getElem?_set, if_neg (by omega)]
          · rfl
        rw [show overlayZ o ((sl, some v) :: s2'.zip r2') racc
          = overlayZ (o + 1) (s2'.zip r2') (racc.set o (some v)) from rfl]
        rw [ih r2' (o + 1) (racc.set o (some v)) hlen' hset_len
          (by rw [hset_drop]; exact hdrop1)]
        rw [List.take_succ, hset_take]
        have hgset : (racc.set o (some v))[o]? = some (some v) := by
          rw [List.getElem?_set, if_pos rfl]
          simp [holt]
        rw [hgset]
        simp

theorem md_roundtrip (schema : List MDSlot) (rec : List (Option FieldVal))
    (hOK : schemaOK schema = true) (hIdx : schemaIdxOK schema = true)
    (hw : wfRec schema rec = true) :
    mdFromText schema (mdAsText schema [] rec) = some rec := by
  simp only [wfRec, Bool.and_eq_true, decide_eq_true_eq] at hw
  obtain ⟨hlen, hall⟩ := hw
  have hz : ∀ sr ∈ schema.zip rec, wfEntry sr.1 sr.2 = true := List.all_eq_true.mp hall
  have hkeys : ∀ sr ∈ schema.zip rec, (sr.1.sname.head? == some '_') = true
      ∨ keyClean (keyReconstruct sr.1.sname) = true := by
    intro sr hsr
    have hmem : sr.1 ∈ schema := (List.of_mem_zip hsr).1
    have := (List.all_eq_true.mp hOK) sr.1 hmem
    rcases Bool.or_eq_true_iff.mp this with hx | hx
    · exact Or.inl hx
    · exact Or.inr ((Bool.and_eq_true _ _).mp hx).1
  have hparse : parsePairs (mdAsText schema [] rec) = (schema.zip rec).filterMap pairOf := by
    rw [show mdAsText schema [] rec = ((schema.zip rec).map segOf).flatten from rfl]
    exact parsePairs_segs (schema.zip rec) hz hkeys
  rw [mdFromText, hparse]
  have hfold := foldlM_overlay schema hOK hIdx schema rec 0
    (List.replicate schema.length none) (fun k => by simp) hz
  rw [hfold]
  have hspec := overlayZ_spec schema rec 0 (List.replicate schema.length none)
    hlen (by simp [hlen]) (by simp [hlen])
  rw [hspec]
  simp

/-- C2 (amended): for a well-formed record over the ScriptInfo or the
ProjectGarbage schema - every assigned slot is a non-property slot whose
rendered value contains no newline and no ": " and re-coerces to itself -
decoding the encoded text restores the record exactly, so re-encoding
reproduces the text; the emitted lines are one Name: Value per assigned
field, in slot declaration order (not in the input's key order). -/
theorem claim_C2_amended (schema : List MDSlot)
    (hs : schema = ScriptInfo_slots ∨ schema = ProjectGarbage_slots)
    (rec : List (Option FieldVal)) (hw : wfRec schema rec = true) :
    mdFromText schema (mdAsText schema [] rec) = some rec
    ∧ mdAsText schema []
        ((mdFromText schema (mdAsText schema [] rec)).getD rec)
      = mdAsText schema [] rec := by
  have h : mdFromText schema (mdAsText schema [] rec) = some rec := by
    rcases hs with hs | hs
    · subst hs
      exact md_roundtrip _ rec (by decide) (by decide) hw
    · subst hs
      exact md_roundtrip _ rec (by decide) (by decide) hw
  exact ⟨h, by rw [h]; rfl⟩

/-- The ScriptInfo record used to instantiate the amended C2: title, wrap
style and play width assigned. -/
def recC2 : List (Option FieldVal) :=
  [some (FieldVal.vstr ("Demo".data)), none, some (FieldVal.vint 2), none, none,
    some (FieldVal.vint 1280), none, none, none, none, none, none, none, none]

/-- The ProjectGarbage record used to instantiate the amended C2: video file,
video position and active line assigned. -/
def recC2PG : List (Option FieldVal) :=
  [none, none, none, none, some (FieldVal.vstr ("demo.mkv".data)), none, none,
    none, some (FieldVal.vint 42), some (FieldVal.vint 7), none]

/-- Concrete instances of the amended C2, one per schema. -/
theorem claim_C2_witness :
    (mdFromText ScriptInfo_slots (mdAsText ScriptInfo_slots [] recC2) = some recC2
      ∧ mdAsText ScriptInfo_slots []
          ((mdFromText ScriptInfo_slots (mdAsText ScriptInfo_slots [] recC2)).getD recC2)
        = mdAsText ScriptInfo_slots [] recC2)
    ∧ (mdFromText ProjectGarbage_slots (mdAsText ProjectGarbage_slots [] recC2PG)
        = some recC2PG
      ∧ mdAsText ProjectGarbage_slots []
          ((mdFromText ProjectGarbage_slots
            (mdAsText ProjectGarbage_slots [] recC2PG)).getD recC2PG)
        = mdAsText ProjectGarbage_slots [] recC2PG) :=
  ⟨claim_C2_amended ScriptInfo_slots (Or.inl rfl) recC2 (by decide),
    claim_C2_amended ProjectGarbage_slots (Or.inr rfl) recC2PG (by decide)⟩
